import Mathlib

/-!
Verification of the jsonValidator engine (Go sources `jsonValidator.go`,
`fieldsValidations.go`) against its natural-language specification.

The decoded JSON value tree (Go `any` after `encoding/json` decoding, plus the
native `int` case the coercer switches also accept) is modelled by `JVal`.
Go `float64` numbers are modelled as rationals `ℚ`: every claim under study
concerns exact comparisons (`float64(int(v)) == v`, bound comparisons), which
the rational model captures; no claim depends on float rounding.
Machine-word overflow is not probed by any claim, so Go `int` is modelled as `ℤ`.

The reflection-driven writes into the caller's target structure are modelled by
returning the committed value (`Option GoVal`) per field, and a list of
committed assignments per structure level; an absent assignment is the Go
zero/unset field.
-/

/-- Decoded dynamic value: the Go `any` tree produced by JSON decoding
(`string`, `float64`, `bool`, `nil`, `[]any`, `map[string]any`), plus native
`int`, which the source's type switches also handle. -/
inductive JVal where
  | str : String → JVal
  | float : ℚ → JVal
  | int : ℤ → JVal
  | bool : Bool → JVal
  | null : JVal
  | list : List JVal → JVal
  | obj : List (String × JVal) → JVal

/-- A choice-set entry: Go stores choices as `[]any` holding `string`, `int`
or `float64`; interface equality distinguishes the dynamic type. -/
inductive ChoiceV where
  | s : String → ChoiceV
  | i : ℤ → ChoiceV
  | f : ℚ → ChoiceV
deriving Repr, DecidableEq

/-- A value committed into the target structure by the engine
(scalar, scalar list, nested struct as its own assignment list, or list of
nested structs). -/
inductive GoVal where
  | str : String → GoVal
  | int : ℤ → GoVal
  | float : ℚ → GoVal
  | bool : Bool → GoVal
  | strList : List String → GoVal
  | intList : List ℤ → GoVal
  | floatList : List ℚ → GoVal
  | structVal : List (String × GoVal) → GoVal
  | structList : List (List (String × GoVal)) → GoVal

/-- Error message payloads: the fixed templates of `DefaultMessages`, carrying
the values the source interpolates.  The exact surrounding wording is a
configuration surface (spec §6), so messages are modelled by constructor plus
interpolated data. -/
inductive Msg where
  | invalidField : Msg
  | invalidFormat : String → Msg
  | invalidMinString : ℤ → Msg
  | invalidMaxString : ℤ → Msg
  | invalidMinNumber : ℚ → Msg
  | invalidMaxNumber : ℚ → Msg
  | invalidMinList : ℤ → Msg
  | invalidMaxList : ℤ → Msg
  | requiredField : Msg
  | invalidChoice : String → List ChoiceV → Msg
deriving Repr, DecidableEq

/-- models `ValidationError` (`jsonValidator.go`). -/
structure VError where
  field : String
  msg : Msg
deriving Repr, DecidableEq

/-- models `Validations` (`jsonValidator.go`): parsed schema entry for one
field.  `Min`/`Max` are Go `float64`, modelled as `ℚ`. -/
structure Validations where
  type : String := ""
  required : Bool := false
  min : ℚ := 0
  max : ℚ := 0
  choices : List ChoiceV := []
deriving Repr, DecidableEq

/-- Go `int(f)` conversion of a `float64`: truncation toward zero. -/
def truncQ (q : ℚ) : ℤ :=
  if 0 ≤ q.num then ((q.num.toNat / q.den : ℕ) : ℤ)
  else -(((-q.num).toNat / q.den : ℕ) : ℤ)

/-- Splits a character list on a separator character, modelling
`strings.Split` for the single-character separators the source uses
(`";"`, `","`, `" "`, `"."`). -/
def splitOnChar (sep : Char) : List Char → List (List Char)
  | [] => [[]]
  | c :: rest =>
    match splitOnChar sep rest with
    | [] => [[]]
    | g :: gs => if c = sep then [] :: g :: gs else (c :: g) :: gs

/-- Decimal value of a digit list. -/
def digitsVal (d : List Char) : ℕ :=
  d.foldl (fun a c => a * 10 + (c.toNat - 48)) 0

/-- models `strconv.ParseInt(s, 10, 0)`: optional sign, one or more ASCII
digits, 64-bit signed range check (bitSize 0 is the platform int, 64-bit). -/
def parseInt10 (s : String) : Option ℤ :=
  let (neg, digits) :=
    match s.data with
    | '-' :: rest => (true, rest)
    | '+' :: rest => (false, rest)
    | rest => (false, rest)
  if digits.isEmpty then none
  else if digits.all Char.isDigit then
    let v : ℤ := if neg then -(digitsVal digits : ℤ) else (digitsVal digits : ℤ)
    if -(2 ^ 63) ≤ v ∧ v < 2 ^ 63 then some v else none
  else none

/-- models the decimal forms of `strconv.ParseFloat(s, 0)`: optional sign,
digits with an optional fractional part.  Exponent, hexadecimal and
inf/nan forms of the standard-library parser are not exercised by any claim
and are omitted; the value is exact (see the header note on `ℚ`). -/
def parseFloatGo (s : String) : Option ℚ :=
  let (neg, rest) :=
    match s.data with
    | '-' :: r => (true, r)
    | '+' :: r => (false, r)
    | r => (false, r)
  match splitOnChar '.' rest with
  | [ip] =>
      if ¬ ip.isEmpty ∧ ip.all Char.isDigit then
        let mag : ℤ := (digitsVal ip : ℤ)
        some (mkRat (if neg then -mag else mag) 1)
      else none
  | [ip, fp] =>
      if ¬ (ip.isEmpty ∧ fp.isEmpty) ∧ (ip ++ fp).all Char.isDigit then
        let mag : ℤ := ((digitsVal ip * 10 ^ fp.length + digitsVal fp : ℕ) : ℤ)
        some (mkRat (if neg then -mag else mag) (10 ^ fp.length))
      else none
  | _ => none

/-- models `strconv.ParseBool`: the recognized boolean literals. -/
def parseBoolGo (s : String) : Option Bool :=
  if s = "1" ∨ s = "t" ∨ s = "T" ∨ s = "TRUE" ∨ s = "true" ∨ s = "True" then some true
  else if s = "0" ∨ s = "f" ∨ s = "F" ∨ s = "FALSE" ∨ s = "false" ∨ s = "False" then
    some false
  else none

/-- models `fmt.Sprintf("%v", f)` for a `float64`: an integral value renders as a
plain decimal integer (the case every claim exercises); a non-integral value
is rendered here as `num/den`, which — like Go's decimal/exponent rendering of
a non-integral float — is never a boolean literal and never an integer
string, the only properties of the rendering any claim depends on. -/
def renderFloat (q : ℚ) : String :=
  if q.den = 1 then toString q.num else toString q.num ++ "/" ++ toString q.den

mutual

/-- models `fmt.Sprintf("%v", v)` for a decoded value, used for the `InvalidFormat`
message payload.  Composite renderings approximate fmt's layout
(space-separated, insertion order); no claim reads a composite payload. -/
def renderVal : JVal → String
  | .str s => s
  | .float q => renderFloat q
  | .int n => toString n
  | .bool b => cond b "true" "false"
  | .null => "<nil>"
  | .list xs => "[" ++ String.intercalate " " (renderValList xs) ++ "]"
  | .obj fs => "map[" ++ String.intercalate " " (renderValFields fs) ++ "]"

/-- Renders each list element (helper of `renderVal`). -/
def renderValList : List JVal → List String
  | [] => []
  | v :: rest => renderVal v :: renderValList rest

/-- Renders each object entry as `key:value` (helper of `renderVal`). -/
def renderValFields : List (String × JVal) → List String
  | [] => []
  | (k, v) :: rest => (k ++ ":" ++ renderVal v) :: renderValFields rest

end

mutual

/-- models `json.Marshal` of a decoded value; string escaping is elided (no claim
feeds a string needing escapes through a marshal round trip). -/
def marshal : JVal → String
  | .str s => "\x22" ++ s ++ "\x22"
  | .float q => renderFloat q
  | .int n => toString n
  | .bool b => cond b "true" "false"
  | .null => "null"
  | .list xs => "[" ++ String.intercalate "," (marshalList xs) ++ "]"
  | .obj fs => "\x7b" ++ String.intercalate "," (marshalFields fs) ++ "\x7d"

/-- Marshals each list element (helper of `marshal`). -/
def marshalList : List JVal → List String
  | [] => []
  | v :: rest => marshal v :: marshalList rest

/-- Marshals each object entry (helper of `marshal`). -/
def marshalFields : List (String × JVal) → List String
  | [] => []
  | (k, v) :: rest => ("\x22" ++ k ++ "\x22:" ++ marshal v) :: marshalFields rest

end

/-- models `getFieldName` (`fieldsValidations.go`): dotted path building;
`reflect.ValueOf(parent).IsZero()` is the empty-string test. -/
def getFieldName (parent fieldName : String) : String :=
  if parent = "" then fieldName else parent ++ "." ++ fieldName

/-- models `contains[T]` (`fieldsValidations.go`): Go interface equality over
the `[]any` choice slice — equal only when dynamic type and value agree,
which the `ChoiceV` constructors capture. -/
def containsChoice (sliceList : List ChoiceV) (value : ChoiceV) : Bool :=
  sliceList.any fun element => element = value

/-- models `TitleCase` (`jsonValidator.go`) for the single-word identifiers
struct field names are; `cases.Title` with `NoLower` capitalizes the first
letter of each word and no claim exercises multi-word names. -/
def TitleCase (s : String) : String :=
  match s.data with
  | [] => s
  | c :: cs => String.mk (c.toUpper :: cs)

/-- models `LowerCase` (`jsonValidator.go`): lowercases the first rune of each
space-separated word. -/
def LowerCase (s : String) : String :=
  if s = "" then s
  else
    String.mk (List.intercalate [' ']
      ((splitOnChar ' ' s.data).map fun w =>
        match w with
        | [] => []
        | c :: cs => c.toLower :: cs))

/-- models `validateStringType` (`fieldsValidations.go`): text passes through,
numbers and booleans render via `%v`, all other shapes are invalid format.
Success is `some`; Go's `(*string, invalidFormat bool)` failure pair carries
the zero value, unobservable to every caller on the failure path. -/
def validateStringType : JVal → Option String
  | .str s => some s
  | .float q => some (renderFloat q)
  | .int n => some (toString n)
  | .bool b => some (cond b "true" "false")
  | _ => none

/-- models `validateIntType` (`fieldsValidations.go`): text via
`strconv.ParseInt(v, 10, 0)`; a `float64` only when truncation toward zero
converts back to the same value; native `int` directly. -/
def validateIntType : JVal → Option ℤ
  | .str s => parseInt10 s
  | .float q => if (truncQ q : ℚ) = q then some (truncQ q) else none
  | .int n => some n
  | _ => none

/-- models `validateFloatType` (`fieldsValidations.go`). -/
def validateFloatType : JVal → Option ℚ
  | .str s => parseFloatGo s
  | .float q => some q
  | .int n => some (n : ℚ)
  | _ => none

/-- models `validateBoolType` (`fieldsValidations.go`): native boolean passes;
text and numbers are rendered with `%v` and fed to `strconv.ParseBool`. -/
def validateBoolType : JVal → Option Bool
  | .str s => parseBoolGo s
  | .int n => parseBoolGo (toString n)
  | .float q => parseBoolGo (renderFloat q)
  | .bool b => some b
  | _ => none

/-- models `validateString` (`fieldsValidations.go`): format error returns
alone; min/max (byte length of the string, bound truncated via `int(Min)`)
and choice violations are all appended; the value is committed (second
component `some`) exactly when the error list stayed empty. -/
def validateString (validations : Validations) (fieldName : String) (fieldValue : JVal)
    (parent : String) : List VError × Option String :=
  match validateStringType fieldValue with
  | none => ([⟨getFieldName parent fieldName, .invalidFormat (renderVal fieldValue)⟩], none)
  | some value =>
    let e1 : List VError :=
      if validations.min ≠ 0 ∧ (value.utf8ByteSize : ℤ) < truncQ validations.min then
        [⟨getFieldName parent fieldName, .invalidMinString (truncQ validations.min)⟩]
      else []
    let e2 : List VError :=
      if validations.max ≠ 0 ∧ (value.utf8ByteSize : ℤ) > truncQ validations.max then
        [⟨getFieldName parent fieldName, .invalidMaxString (truncQ validations.max)⟩]
      else []
    let e3 : List VError :=
      if validations.choices ≠ [] ∧ ¬ containsChoice validations.choices (.s value) then
        [⟨getFieldName parent fieldName, .invalidChoice value validations.choices⟩]
      else []
    let errors := e1 ++ e2 ++ e3
    if errors ≠ [] then (errors, none) else ([], some value)

/-- models `validateInt` (`fieldsValidations.go`): as `validateString` but the
bounds compare the value itself against `int(Min)` / `int(Max)`. -/
def validateInt (validations : Validations) (fieldName : String) (fieldValue : JVal)
    (parent : String) : List VError × Option ℤ :=
  match validateIntType fieldValue with
  | none => ([⟨getFieldName parent fieldName, .invalidFormat (renderVal fieldValue)⟩], none)
  | some value =>
    let e1 : List VError :=
      if validations.min ≠ 0 ∧ value < truncQ validations.min then
        [⟨getFieldName parent fieldName, .invalidMinNumber ((truncQ validations.min : ℤ) : ℚ)⟩]
      else []
    let e2 : List VError :=
      if validations.max ≠ 0 ∧ value > truncQ validations.max then
        [⟨getFieldName parent fieldName, .invalidMaxNumber ((truncQ validations.max : ℤ) : ℚ)⟩]
      else []
    let e3 : List VError :=
      if validations.choices ≠ [] ∧ ¬ containsChoice validations.choices (.i value) then
        [⟨getFieldName parent fieldName, .invalidChoice (toString value) validations.choices⟩]
      else []
    let errors := e1 ++ e2 ++ e3
    if errors ≠ [] then (errors, none) else ([], some value)

/-- models `validateFloat` (`fieldsValidations.go`): bounds compare the
`float64` value directly against `Min`/`Max`. -/
def validateFloat (validations : Validations) (fieldName : String) (fieldValue : JVal)
    (parent : String) : List VError × Option ℚ :=
  match validateFloatType fieldValue with
  | none => ([⟨getFieldName parent fieldName, .invalidFormat (renderVal fieldValue)⟩], none)
  | some value =>
    let e1 : List VError :=
      if validations.min ≠ 0 ∧ value < validations.min then
        [⟨getFieldName parent fieldName, .invalidMinNumber validations.min⟩]
      else []
    let e2 : List VError :=
      if validations.max ≠ 0 ∧ value > validations.max then
        [⟨getFieldName parent fieldName, .invalidMaxNumber validations.max⟩]
      else []
    let e3 : List VError :=
      if validations.choices ≠ [] ∧ ¬ containsChoice validations.choices (.f value) then
        [⟨getFieldName parent fieldName, .invalidChoice (renderFloat value) validations.choices⟩]
      else []
    let errors := e1 ++ e2 ++ e3
    if errors ≠ [] then (errors, none) else ([], some value)

/-- models `validateBool` (`fieldsValidations.go`): only the format check;
on success the value is committed. -/
def validateBool (fieldName : String) (fieldValue : JVal) (parent : String) :
    List VError × Option Bool :=
  match validateBoolType fieldValue with
  | none => ([⟨getFieldName parent fieldName, .invalidFormat (renderVal fieldValue)⟩], none)
  | some value => ([], some value)

/-- models `parseElements` (`fieldsValidations.go`): coerce each element,
emitting one `InvalidFormat` error at path `parent[i]` per failure; on a
failure Go appends the coercer's zero value, which `dflt` stands for (every
caller discards the value list when any error was produced). -/
def parseElements {T : Type} (dflt : T) (valuesList : List JVal)
    (validateElement : JVal → Option T) (parent : String) : List T × List VError :=
  (valuesList.enum.foldl
    (fun acc (p : ℕ × JVal) =>
      match validateElement p.2 with
      | some v => (acc.1 ++ [v], acc.2)
      | none =>
          (acc.1 ++ [dflt],
           acc.2 ++ [⟨parent ++ "[" ++ toString p.1 ++ "]",
                      .invalidFormat (renderVal p.2)⟩]))
    ([], []))

/-- models `removeDuplicate` (`fieldsValidations.go`): the `allKeys` seen-map
plus append loop — the accumulated output list is itself the seen set. -/
def removeDuplicate {T : Type} [DecidableEq T] (sliceList : List T) : List T :=
  sliceList.foldl (fun list item => if item ∈ list then list else list ++ [item]) []

/-- Specification-side first-occurrence de-duplication: keep each value's
first occurrence, deleting every later duplicate.  Used to state what
`removeDuplicate` computes. -/
def dedupFirst {T : Type} [DecidableEq T] : List T → List T
  | [] => []
  | a :: rest => a :: dedupFirst (rest.filter (fun x => x ≠ a))
termination_by l => l.length
decreasing_by
  simp only [List.length_cons]
  exact Nat.lt_succ_of_le (List.length_filter_le _ _)

/-- Renders a choice-embedded value with `%v`, for the `InvalidChoice`
message payload. -/
def renderChoice : ChoiceV → String
  | .s s => s
  | .i n => toString n
  | .f q => renderFloat q

/-- models `validateListChoices` (`fieldsValidations.go`): when a choice set
was declared, one error per violating value at its index in the list the
function receives (the post-dedup list at the call site). -/
def validateListChoices {T : Type} (embed : T → ChoiceV) (choices : List ChoiceV)
    (parsedValues : List T) (parent : String) : List VError :=
  if choices ≠ [] then
    parsedValues.enum.foldl
      (fun errors (p : ℕ × T) =>
        if containsChoice choices (embed p.2) then errors
        else errors ++ [⟨parent ++ "[" ++ toString p.1 ++ "]",
                         .invalidChoice (renderChoice (embed p.2)) choices⟩])
      []
  else []

/-- models `validateList[T]` (`fieldsValidations.go`): shape check, length
bounds (short-circuit before element parsing), element coercion
(short-circuit before de-duplication), de-duplication, choice check on the
de-duplicated list, and commit of the de-duplicated list on zero errors. -/
def validateList {T : Type} [DecidableEq T] (dflt : T) (embed : T → ChoiceV)
    (validations : Validations) (fieldName : String) (fieldValue : JVal)
    (validateElement : JVal → Option T) (parent : String) :
    List VError × Option (List T) :=
  match fieldValue with
  | .list value =>
    let e1 : List VError :=
      if validations.min ≠ 0 ∧ (value.length : ℤ) < truncQ validations.min then
        [⟨getFieldName parent fieldName, .invalidMinList (truncQ validations.min)⟩]
      else []
    let e2 : List VError :=
      if validations.max ≠ 0 ∧ (value.length : ℤ) > truncQ validations.max then
        [⟨getFieldName parent fieldName, .invalidMaxList (truncQ validations.max)⟩]
      else []
    if e1 ++ e2 ≠ [] then (e1 ++ e2, none)
    else
      let pe := parseElements dflt value validateElement (getFieldName parent fieldName)
      if pe.2 ≠ [] then (pe.2, none)
      else
        let parsedValues := removeDuplicate pe.1
        let cerrs :=
          validateListChoices embed validations.choices parsedValues
            (getFieldName parent fieldName)
        if cerrs ≠ [] then (cerrs, none) else ([], some parsedValues)
  | _ => ([⟨getFieldName parent fieldName, .invalidFormat (renderVal fieldValue)⟩], none)

/-- models `strings.CutPrefix`: `some` with the remainder when `pre` leads `s`. -/
def cutPre (s pre : String) : Option String :=
  if pre.data.isPrefixOf s.data then some (String.mk (s.data.drop pre.data.length))
  else none

/-- One choice token parsed according to the already-established type, as in
the `choices=` branch of `parseValidationTags`. -/
def parseChoice (ty : String) (choice : String) : Option ChoiceV :=
  if ty = "string" ∨ ty = "[]string" then some (.s choice)
  else if ty = "int" ∨ ty = "[]int" then (parseInt10 choice).map .i
  else if ty = "float" ∨ ty = "[]float" then (parseFloatGo choice).map .f
  else none

/-- The nine recognized `type=` values. -/
def recognizedTypes : List String :=
  ["string", "int", "float", "bool", "struct", "[]string", "[]int", "[]float", "[]struct"]

/-- One iteration of the `parseValidationTags` loop: the four `CutPrefix`
cases applied in source order to the accumulated `Validations`. -/
def applyTag (validations : Validations) (validation : String) : Validations :=
  let validations :=
    match cutPre validation "required=" with
    | some value =>
        if value = "true" then { validations with required := true } else validations
    | none => validations
  let validations :=
    match cutPre validation "type=" with
    | some value =>
        if value ∈ recognizedTypes then { validations with type := value } else validations
    | none => validations
  let validations :=
    match cutPre validation "min=" with
    | some value =>
        if validations.type ∈ ["string", "int", "[]string", "[]int", "[]float", "[]struct"] then
          match parseInt10 value with
          | some minL => { validations with min := (minL : ℚ) }
          | none => validations
        else if validations.type = "float" then
          match parseFloatGo value with
          | some minL => { validations with min := minL }
          | none => validations
        else validations
    | none => validations
  let validations :=
    match cutPre validation "max=" with
    | some value =>
        if validations.type ∈ ["string", "int", "[]string", "[]int", "[]float", "[]struct"] then
          match parseInt10 value with
          | some maxL => { validations with max := (maxL : ℚ) }
          | none => validations
        else if validations.type = "float" then
          match parseFloatGo value with
          | some maxL => { validations with max := maxL }
          | none => validations
        else validations
    | none => validations
  match cutPre validation "choices=" with
  | some value =>
      if value ≠ "" then
        { validations with
          choices := ((splitOnChar ',' value.data).map String.mk).filterMap
            (parseChoice validations.type) }
      else validations
  | none => validations

/-- models `parseValidationTags` (`fieldsValidations.go`). -/
def parseValidationTags (validationsSplit : List String) : Validations :=
  validationsSplit.foldl applyTag {}

/-- Static metadata of a Go struct type, as reflection exposes it to
`getValidations`: per field its declared name, its `validations` tag and —
when the field's type is a (pointer to) struct or a slice of structs — the
nested struct type.  -/
inductive StructTy where
  | mk : List (String × String × Option StructTy) → StructTy

/-- The field metadata list of a struct type. -/
def StructTy.fieldsOf : StructTy → List (String × String × Option StructTy)
  | .mk fs => fs

/-- models `getValidations` (`fieldsValidations.go`): one schema entry per
declared field, keyed by the lowercase-initial field name; the Go map is
modelled as an association list in declaration order (struct field names are
unique, so lookup order is immaterial). -/
def getValidations (ty : StructTy) : List (String × Validations) :=
  ty.fieldsOf.map fun f =>
    (LowerCase f.1, parseValidationTags ((splitOnChar ';' f.2.1.data).map String.mk))

/-- The nested struct type of the field matched by a decoded key (reflection's
`field.Type().Elem()` at `FieldByName(TitleCase(fieldName))`). -/
def findNested (ty : StructTy) (fieldName : String) : Option StructTy :=
  (ty.fieldsOf.find? fun f => LowerCase f.1 = fieldName).bind fun f => f.2.2

/-- Association-list lookup, modelling the Go map read
`validationsMap[fieldName]`. -/
def lookupV (vmap : List (String × Validations)) (k : String) : Option Validations :=
  (vmap.find? fun p => p.1 = k).map Prod.snd

/-- models the in-place `validations.Required = false` store through the map's
pointer: clears the flag on the entry named `k`. -/
def clearRequired (vmap : List (String × Validations)) (k : String) :
    List (String × Validations) :=
  vmap.map fun p => if p.1 = k then (p.1, { p.2 with required := false }) else p

/-- models step 4 of `validateJsonData`: one `RequiredField` error per entry
whose `Required` flag is still set. -/
def requiredErrors (vmap : List (String × Validations)) (parent : String) : List VError :=
  vmap.filterMap fun p =>
    if p.2.required then some ⟨getFieldName parent p.1, .requiredField⟩ else none

mutual

/-- models the key loop and required-field sweep of `validateJsonData`
(`jsonValidator.go`, steps 3–5) on a successfully decoded object, with the
nondeterministic Go map iteration represented by the list order of `fields`.
Returns the accumulated errors and the committed field assignments
(keyed by `TitleCase` of the decoded key). -/
def processObj (ty : StructTy) (vmap : List (String × Validations))
    (fields : List (String × JVal)) (parent : String) :
    List VError × List (String × GoVal) :=
  match fields with
  | [] => (requiredErrors vmap parent, [])
  | (fieldName, fieldValue) :: rest =>
    match lookupV vmap fieldName with
    | none =>
      let r := processObj ty vmap rest parent
      (⟨getFieldName parent fieldName, .invalidField⟩ :: r.1, r.2)
    | some validations =>
      let vmap2 := clearRequired vmap fieldName
      let f := parseFieldF ty validations fieldName fieldValue parent
      let r := processObj ty vmap2 rest parent
      (f.1 ++ r.1,
       (match f.2 with
        | some g => [(TitleCase fieldName, g)]
        | none => []) ++ r.2)
termination_by (sizeOf fields, 0)

/-- models `parseField` (`fieldsValidations.go`): dispatch on the parsed
`type=` tag; an empty or unrecognized type returns `nil` and writes
nothing. -/
def parseFieldF (ty : StructTy) (validations : Validations) (fieldName : String)
    (fieldValue : JVal) (parent : String) : List VError × Option GoVal :=
  match validations.type with
  | "string" =>
      let r := validateString validations fieldName fieldValue parent
      (r.1, r.2.map GoVal.str)
  | "int" =>
      let r := validateInt validations fieldName fieldValue parent
      (r.1, r.2.map GoVal.int)
  | "float" =>
      let r := validateFloat validations fieldName fieldValue parent
      (r.1, r.2.map GoVal.float)
  | "bool" =>
      let r := validateBool fieldName fieldValue parent
      (r.1, r.2.map GoVal.bool)
  | "struct" => validateStructF ty fieldName fieldValue parent
  | "[]string" =>
      let r := validateList "" ChoiceV.s validations fieldName fieldValue
        validateStringType parent
      (r.1, r.2.map GoVal.strList)
  | "[]int" =>
      let r := validateList 0 ChoiceV.i validations fieldName fieldValue
        validateIntType parent
      (r.1, r.2.map GoVal.intList)
  | "[]float" =>
      let r := validateList 0 ChoiceV.f validations fieldName fieldValue
        validateFloatType parent
      (r.1, r.2.map GoVal.floatList)
  | "[]struct" => validateStructListF ty validations fieldName fieldValue parent
  | _ => ([], none)
termination_by (sizeOf fieldValue, 3)

/-- models `validateStruct` (`fieldsValidations.go`): the field is first set
to a freshly allocated nested struct (hence always an assignment), the
sub-value is re-marshalled and re-decoded (`decodeSub`), and the whole
pipeline recurses with the field's path as prefix. -/
def validateStructF (ty : StructTy) (fieldName : String) (fieldValue : JVal)
    (parent : String) : List VError × Option GoVal :=
  let nty := (findNested ty fieldName).getD (.mk [])
  match fieldValue with
  | .obj fs =>
    let r := processObj nty (getValidations nty) fs (getFieldName parent fieldName)
    (r.1, some (.structVal r.2))
  | .null =>
    (requiredErrors (getValidations nty) (getFieldName parent fieldName),
     some (.structVal []))
  | _ => ([⟨"json", .invalidFormat (marshal fieldValue)⟩], some (.structVal []))
termination_by (sizeOf fieldValue, 2)

/-- models `validateStructList` (`fieldsValidations.go`): shape check, length
bounds (short-circuit before element validation), then per-element recursion;
the nested-struct list is committed only when the whole element sweep
produced zero errors. -/
def validateStructListF (ty : StructTy) (validations : Validations) (fieldName : String)
    (fieldValue : JVal) (parent : String) : List VError × Option GoVal :=
  let nty := (findNested ty fieldName).getD (.mk [])
  match fieldValue with
  | .list valueList =>
    let e1 : List VError :=
      if validations.min ≠ 0 ∧ (valueList.length : ℤ) < truncQ validations.min then
        [⟨getFieldName parent fieldName, .invalidMinList (truncQ validations.min)⟩]
      else []
    let e2 : List VError :=
      if validations.max ≠ 0 ∧ (valueList.length : ℤ) > truncQ validations.max then
        [⟨getFieldName parent fieldName, .invalidMaxList (truncQ validations.max)⟩]
      else []
    if e1 ++ e2 ≠ [] then (e1 ++ e2, none)
    else
      let r := parseStructElementsF nty valueList (getFieldName parent fieldName) 0
      (r.1, if r.1 = [] then some (.structList r.2) else none)
  | _ => ([⟨getFieldName parent fieldName, .invalidFormat (renderVal fieldValue)⟩], none)
termination_by (sizeOf fieldValue, 2)

/-- models the element loop of `parseStructElements` (`fieldsValidations.go`)
with the loop counter `i` explicit: each element is re-marshalled and
validated into its own fresh nested struct at path `parent[i]`; errors
accumulate across all elements. -/
def parseStructElementsF (nty : StructTy) (valueList : List JVal) (parent : String)
    (i : ℕ) : List VError × List (List (String × GoVal)) :=
  match valueList with
  | [] => ([], [])
  | v :: rest =>
    let r := validateSub nty v (parent ++ "[" ++ toString i ++ "]")
    let rr := parseStructElementsF nty rest parent (i + 1)
    (r.1 ++ rr.1, r.2 :: rr.2)
termination_by (sizeOf valueList, 1)

/-- models `validateJsonData` applied to `json.Marshal` of a decoded
sub-value (the recursive calls in `validateStruct` and
`parseStructElements`): a decoded object supplies its keys; `null`
re-decodes as the empty object (Go's `Unmarshal("null", &map)` succeeds with
a nil map), leaving only the required-field sweep; any other shape fails the
object decode with the single error at literal field `"json"` carrying the
re-marshalled text. -/
def validateSub (nty : StructTy) (v : JVal) (path : String) :
    List VError × List (String × GoVal) :=
  match v with
  | .obj fs => processObj nty (getValidations nty) fs path
  | .null => (requiredErrors (getValidations nty) path, [])
  | _ => ([⟨"json", .invalidFormat (marshal v)⟩], [])
termination_by (sizeOf v, 1)

end

/-- models `validateJsonData` (`jsonValidator.go`) at the top level.  The
standard-library decode of the raw bytes is out of scope (spec §1) and is
abstracted by its result: `decoded = none` is an `Unmarshal` error (the raw
input does not decode as a JSON object), `some fields` a successful decode
into a map.  On decode failure the single error has field literally
`"json"` and carries the raw input text; nothing is processed and no field
is assigned. -/
def validateJsonDataTop (raw : String) (decoded : Option (List (String × JVal)))
    (ty : StructTy) (parent : String) : List VError × List (String × GoVal) :=
  match decoded with
  | none => ([⟨"json", .invalidFormat raw⟩], [])
  | some fields => processObj ty (getValidations ty) fields parent

/-- Specification-side description of the seen-key effect of the key loop:
every schema entry whose name is among the processed keys has its `Required`
flag cleared. -/
def clearAll (vmap : List (String × Validations)) (ks : List String) :
    List (String × Validations) :=
  vmap.map fun p => if p.1 ∈ ks then (p.1, { p.2 with required := false }) else p

/-- Is this message any of the min-bound templates
(`InvalidMinString`/`InvalidMinNumber`/`InvalidMinList`)? -/
def Msg.isMinB : Msg → Bool
  | .invalidMinString _ => true
  | .invalidMinNumber _ => true
  | .invalidMinList _ => true
  | _ => false

/-- Is this message any of the max-bound templates
(`InvalidMaxString`/`InvalidMaxNumber`/`InvalidMaxList`)? -/
def Msg.isMaxB : Msg → Bool
  | .invalidMaxString _ => true
  | .invalidMaxNumber _ => true
  | .invalidMaxList _ => true
  | _ => false

/-- The min/max/choice violation blocks of `validateString` (spec §4.3
items (2)-(4)), in source order. -/
def strViolations (vd : Validations) (path : String) (value : String) : List VError :=
  (if vd.min ≠ 0 ∧ (value.utf8ByteSize : ℤ) < truncQ vd.min then
      [⟨path, .invalidMinString (truncQ vd.min)⟩] else [])
  ++ (if vd.max ≠ 0 ∧ (value.utf8ByteSize : ℤ) > truncQ vd.max then
      [⟨path, .invalidMaxString (truncQ vd.max)⟩] else [])
  ++ (if vd.choices ≠ [] ∧ ¬ containsChoice vd.choices (.s value) then
      [⟨path, .invalidChoice value vd.choices⟩] else [])

/-- The min/max/choice violation blocks of `validateInt`, in source order. -/
def intViolations (vd : Validations) (path : String) (value : ℤ) : List VError :=
  (if vd.min ≠ 0 ∧ value < truncQ vd.min then
      [⟨path, .invalidMinNumber ((truncQ vd.min : ℤ) : ℚ)⟩] else [])
  ++ (if vd.max ≠ 0 ∧ value > truncQ vd.max then
      [⟨path, .invalidMaxNumber ((truncQ vd.max : ℤ) : ℚ)⟩] else [])
  ++ (if vd.choices ≠ [] ∧ ¬ containsChoice vd.choices (.i value) then
      [⟨path, .invalidChoice (toString value) vd.choices⟩] else [])

/-- The min/max/choice violation blocks of `validateFloat`, in source order. -/
def floatViolations (vd : Validations) (path : String) (value : ℚ) : List VError :=
  (if vd.min ≠ 0 ∧ value < vd.min then
      [⟨path, .invalidMinNumber vd.min⟩] else [])
  ++ (if vd.max ≠ 0 ∧ value > vd.max then
      [⟨path, .invalidMaxNumber vd.max⟩] else [])
  ++ (if vd.choices ≠ [] ∧ ¬ containsChoice vd.choices (.f value) then
      [⟨path, .invalidChoice (renderFloat value) vd.choices⟩] else [])

theorem foldlDedup_eq {T : Type} [DecidableEq T] (l : List T) (acc : List T) :
    l.foldl (fun list item => if item ∈ list then list else list ++ [item]) acc
      = acc ++ dedupFirst (l.filter fun x => x ∉ acc) := by
  induction l generalizing acc with
  | nil => simp [dedupFirst]
  | cons a rest ih =>
    by_cases ha : a ∈ acc
    · rw [List.foldl_cons, if_pos ha, ih acc]
      have hfa : (a :: rest).filter (fun x => x ∉ acc) = rest.filter (fun x => x ∉ acc) := by
        simp [List.filter_cons, ha]
      rw [hfa]
    · rw [List.foldl_cons, if_neg ha, ih (acc ++ [a])]
      have hfa : (a :: rest).filter (fun x => x ∉ acc)
          = a :: rest.filter (fun x => x ∉ acc) := by
        simp [List.filter_cons, ha]
      rw [hfa, dedupFirst]
      have hff : rest.filter (fun x => x ∉ acc ++ [a])
          = (rest.filter (fun x => x ∉ acc)).filter (fun x => x ≠ a) := by
        rw [List.filter_filter]
        apply List.filter_congr
        intro x _
        by_cases hxa : x = a <;> by_cases hxc : x ∈ acc <;>
          simp [hxa, hxc, List.mem_append]
      rw [hff]
      simp

theorem removeDuplicate_eq_dedupFirst {T : Type} [DecidableEq T] (l : List T) :
    removeDuplicate l = dedupFirst l := by
  rw [removeDuplicate, foldlDedup_eq l []]
  simp

theorem parseElements_foldl {T : Type} (dflt : T) (f : JVal → Option T) (parent : String)
    (xs : List (ℕ × JVal)) (acc : List T × List VError)
    (hok : ∀ p ∈ xs, (f p.2).isSome) :
    xs.foldl
      (fun acc (p : ℕ × JVal) =>
        match f p.2 with
        | some v => (acc.1 ++ [v], acc.2)
        | none =>
            (acc.1 ++ [dflt],
             acc.2 ++ [⟨parent ++ "[" ++ toString p.1 ++ "]",
                        .invalidFormat (renderVal p.2)⟩]))
      acc
      = (acc.1 ++ xs.map (fun p => (f p.2).getD dflt), acc.2) := by
  induction xs generalizing acc with
  | nil => simp
  | cons p rest ih =>
    have hp : (f p.2).isSome := hok p (by simp)
    obtain ⟨v, hv⟩ := Option.isSome_iff_exists.mp hp
    rw [List.foldl_cons, List.map_cons]
    have hrest : ∀ q ∈ rest, (f q.2).isSome := fun q hq => hok q (by simp [hq])
    rw [hv]
    rw [ih _ hrest]
    simp [hv]

/-- When every element coerces, `parseElements` returns exactly the coerced
values and no errors. -/
theorem parseElements_all_ok {T : Type} (dflt : T) (xs : List JVal)
    (f : JVal → Option T) (parent : String) (hok : ∀ e ∈ xs, (f e).isSome) :
    parseElements dflt xs f parent = (xs.map fun e => (f e).getD dflt, []) := by
  rw [parseElements, parseElements_foldl dflt f parent xs.enum ([], [])]
  · have h1 : xs.enum.map (fun p : ℕ × JVal => (f p.2).getD dflt)
        = (xs.enum.map Prod.snd).map (fun e => (f e).getD dflt) := by
      rw [List.map_map]; rfl
    rw [h1, List.enum_map_snd]
    simp
  · intro p hp
    apply hok
    have hmem := List.mem_map_of_mem Prod.snd hp
    rwa [List.enum_map_snd] at hmem

theorem choiceFoldl_eq {T : Type} (embed : T → ChoiceV) (choices : List ChoiceV)
    (parent : String) (l : List (ℕ × T)) (acc : List VError) :
    l.foldl
      (fun errors (p : ℕ × T) =>
        if containsChoice choices (embed p.2) then errors
        else errors ++ [⟨parent ++ "[" ++ toString p.1 ++ "]",
                         .invalidChoice (renderChoice (embed p.2)) choices⟩])
      acc
      = acc ++ (l.filter fun p => ¬ containsChoice choices (embed p.2)).map
          (fun p => ⟨parent ++ "[" ++ toString p.1 ++ "]",
                     .invalidChoice (renderChoice (embed p.2)) choices⟩) := by
  induction l generalizing acc with
  | nil => simp
  | cons p rest ih =>
    by_cases hc : containsChoice choices (embed p.2)
    · rw [List.foldl_cons, if_pos hc, ih acc]
      simp [List.filter_cons, hc]
    · rw [List.foldl_cons, if_neg hc, ih]
      simp [List.filter_cons, hc]

/-- Lemma: `validateListChoices` produces exactly one error per violating value, at
that value's index in the received (post-dedup) list. -/
theorem validateListChoices_eq {T : Type} (embed : T → ChoiceV) (choices : List ChoiceV)
    (vals : List T) (parent : String) :
    validateListChoices embed choices vals parent
      = if choices = [] then []
        else (vals.enum.filter fun p => ¬ containsChoice choices (embed p.2)).map
          (fun p => ⟨parent ++ "[" ++ toString p.1 ++ "]",
                     .invalidChoice (renderChoice (embed p.2)) choices⟩) := by
  rw [validateListChoices]
  by_cases h : choices = []
  · simp [h]
  · simp only [h, if_neg, ne_eq, not_false_iff, if_true, if_false]
    rw [choiceFoldl_eq]
    simp

/-- The element sweep of `parseStructElements` is elementwise independent:
its errors are the concatenation of each element's own recursive validation
at path `parent[i]`, and the nested structures are each element's own
assignments, regardless of other elements' failures. -/
theorem parseStructElementsF_eq (nty : StructTy) (xs : List JVal) (parent : String)
    (i : ℕ) :
    parseStructElementsF nty xs parent i
      = (((xs.enumFrom i).map fun p =>
            (validateSub nty p.2 (parent ++ "[" ++ toString p.1 ++ "]")).1).flatten,
         (xs.enumFrom i).map fun p =>
            (validateSub nty p.2 (parent ++ "[" ++ toString p.1 ++ "]")).2) := by
  induction xs generalizing i with
  | nil => rw [parseStructElementsF]; simp
  | cons v rest ih =>
    rw [parseStructElementsF, ih (i + 1)]
    simp [List.enumFrom_cons]

theorem lookupV_eq_none_iff (vmap : List (String × Validations)) (k : String) :
    lookupV vmap k = none ↔ ∀ p ∈ vmap, p.1 ≠ k := by
  rw [lookupV]
  simp [List.find?_eq_none]

theorem clearAll_nil (vmap : List (String × Validations)) : clearAll vmap [] = vmap := by
  simp [clearAll]

theorem clearAll_cons_absent (vmap : List (String × Validations)) (k : String)
    (ks : List String) (h : lookupV vmap k = none) :
    clearAll vmap (k :: ks) = clearAll vmap ks := by
  rw [clearAll, clearAll]
  apply List.map_congr_left
  intro p hp
  have hne : p.1 ≠ k := (lookupV_eq_none_iff vmap k).mp h p hp
  simp [List.mem_cons, hne]

theorem clearAll_clearRequired (vmap : List (String × Validations)) (k : String)
    (ks : List String) :
    clearAll (clearRequired vmap k) ks = clearAll vmap (k :: ks) := by
  rw [clearRequired, clearAll, clearAll, List.map_map]
  apply List.map_congr_left
  intro p _
  by_cases hk : p.1 = k
  · by_cases hks : p.1 ∈ ks <;> simp [hk, hks, Function.comp]
  · by_cases hks : p.1 ∈ ks <;> simp [hk, hks, Function.comp]

/-- Lemma: `requiredErrors` is exactly one `RequiredField` error, at the field's
path, per entry whose flag is still set — and none for any other entry. -/
theorem requiredErrors_eq (vmap : List (String × Validations)) (parent : String) :
    requiredErrors vmap parent
      = (vmap.filter fun p => p.2.required).map
          (fun p => ⟨getFieldName parent p.1, .requiredField⟩) := by
  induction vmap with
  | nil => rfl
  | cons p rest ih =>
    rw [requiredErrors] at ih ⊢
    by_cases hr : p.2.required <;> simp [List.filterMap_cons, List.filter_cons, hr, ih]

theorem processObj_spec (ty : StructTy) (vmap : List (String × Validations))
    (fields : List (String × JVal)) (parent : String) :
    (∃ pre, (processObj ty vmap fields parent).1
        = pre ++ requiredErrors (clearAll vmap (fields.map Prod.fst)) parent)
    ∧ (∀ p ∈ (processObj ty vmap fields parent).2,
        ∃ k, k ∈ fields.map Prod.fst ∧ p.1 = TitleCase k) := by
  induction fields generalizing vmap with
  | nil =>
    rw [processObj]
    exact ⟨⟨[], by simp [clearAll_nil]⟩, by simp⟩
  | cons kv rest ih =>
    rw [processObj]
    cases hl : lookupV vmap kv.1 with
    | none =>
      obtain ⟨⟨pre, hpre⟩, hasgn⟩ := ih vmap
      constructor
      · exact ⟨⟨getFieldName parent kv.1, .invalidField⟩ :: pre, by
          simp only [List.map_cons]
          rw [clearAll_cons_absent vmap kv.1 _ hl]
          simp [hpre]⟩
      · intro p hp
        simp only [List.map_cons]
        obtain ⟨k, hk, hpk⟩ := hasgn p hp
        exact ⟨k, by simp [hk], hpk⟩
    | some validations =>
      obtain ⟨⟨pre, hpre⟩, hasgn⟩ := ih (clearRequired vmap kv.1)
      constructor
      · refine ⟨(parseFieldF ty validations kv.1 kv.2 parent).1 ++ pre, ?_⟩
        simp only [List.map_cons]
        rw [← clearAll_clearRequired vmap kv.1]
        simp [hpre]
      · intro p hp
        simp only [List.mem_append] at hp
        rcases hp with hp | hp
        · refine ⟨kv.1, by simp, ?_⟩
          rcases hm : (parseFieldF ty validations kv.1 kv.2 parent).2 with _ | g <;>
            rw [hm] at hp <;> simp at hp
          rw [hp]
        · obtain ⟨k, hk, hpk⟩ := hasgn p hp
          exact ⟨k, by simp [hk], hpk⟩

/-- C5: when the raw input fails to decode as a JSON object, `validateJsonData`
returns exactly one error, with field literally `"json"` and the
`InvalidFormat` message carrying the raw input text; no key is processed and
no target field is assigned (the structure stays unmutated). -/
theorem claim5_decode_failure (raw : String) (ty : StructTy) (parent : String) :
    validateJsonDataTop raw none ty parent
      = ([⟨"json", .invalidFormat raw⟩], []) := rfl

/-- C6: the Integer coercer succeeds exactly on text that parses as a base-10
integer, a real number whose truncation toward zero converts back to the
same value, and a native integer; every other decoded shape (non-integral
reals, booleans, objects, lists, null) fails with not-ok. -/
theorem claim6_integer_coercer (v : JVal) :
    (validateIntType v).isSome = true ↔
      (∃ s, v = .str s ∧ (parseInt10 s).isSome = true)
      ∨ (∃ q, v = .float q ∧ (truncQ q : ℚ) = q)
      ∨ (∃ n, v = .int n) := by
  cases v <;> simp [validateIntType]

/-- C7 counterexample: the Boolean coercer accepts the text `"1"`, whose
rendering is neither of the literals `"true"`/`"false"`, refuting the claim
that success requires the rendering to be one of those two literals. -/
theorem claim7_counterexample :
    validateBoolType (.str "1") = some true
    ∧ "1" ≠ "true" ∧ "1" ≠ "false" := by
  refine ⟨by decide, by decide, by decide⟩

/-- C7 (amended): the Boolean coercer succeeds exactly on a native boolean
and on text/numbers whose `%v` rendering is one of the literals recognized by
the standard boolean parser — `"1"`, `"t"`, `"T"`, `"TRUE"`, `"true"`,
`"True"`, `"0"`, `"f"`, `"F"`, `"FALSE"`, `"false"`, `"False"` — not just
`"true"`/`"false"`; objects, lists and null always fail. -/
theorem claim7_bool_coercer (v : JVal) :
    ((validateBoolType v).isSome = true ↔
      (∃ b, v = .bool b)
      ∨ (∃ s, v = .str s ∧ (parseBoolGo s).isSome = true)
      ∨ (∃ n, v = .int n ∧ (parseBoolGo (toString n)).isSome = true)
      ∨ (∃ q, v = .float q ∧ (parseBoolGo (renderFloat q)).isSome = true))
    ∧ (∀ s, (parseBoolGo s).isSome = true ↔
        s ∈ ["1", "t", "T", "TRUE", "true", "True",
             "0", "f", "F", "FALSE", "false", "False"]) := by
  constructor
  · cases v <;> simp [validateBoolType]
  · intro s
    rw [parseBoolGo]
    by_cases h1 : s = "1" ∨ s = "t" ∨ s = "T" ∨ s = "TRUE" ∨ s = "true" ∨ s = "True"
    · simp only [h1, if_true]
      simp only [List.mem_cons, List.mem_singleton, Option.isSome_some, true_iff]
      tauto
    · by_cases h2 : s = "0" ∨ s = "f" ∨ s = "F" ∨ s = "FALSE" ∨ s = "false" ∨ s = "False"
      · simp [h1, h2]
      · simp only [h1, h2, if_false]
        push_neg at h1 h2
        simp [h1.1, h1.2.1, h1.2.2.1, h1.2.2.2.1, h1.2.2.2.2.1, h1.2.2.2.2.2,
          h2.1, h2.2.1, h2.2.2.1, h2.2.2.2.1, h2.2.2.2.2.1, h2.2.2.2.2.2]

theorem parseElements_foldl_errs {T : Type} (dflt : T) (f : JVal → Option T)
    (parent : String) (l : List (ℕ × JVal)) (acc : List T × List VError) :
    ∀ e ∈ (l.foldl
      (fun acc (p : ℕ × JVal) =>
        match f p.2 with
        | some v => (acc.1 ++ [v], acc.2)
        | none =>
            (acc.1 ++ [dflt],
             acc.2 ++ [⟨parent ++ "[" ++ toString p.1 ++ "]",
                        .invalidFormat (renderVal p.2)⟩]))
      acc).2, e ∈ acc.2 ∨ ∃ s, e.msg = .invalidFormat s := by
  induction l generalizing acc with
  | nil => intro e he; exact Or.inl he
  | cons p rest ih =>
    intro e he
    rw [List.foldl_cons] at he
    rcases hf : f p.2 with _ | v <;> rw [hf] at he
    · have he2 : e ∈ (List.foldl _ (acc.1 ++ [dflt],
          acc.2 ++ [⟨parent ++ "[" ++ toString p.1 ++ "]",
                     .invalidFormat (renderVal p.2)⟩]) rest).2 := he
      rcases ih _ e he2 with hacc | hfmt
      · simp only [List.mem_append, List.mem_singleton] at hacc
        rcases hacc with h | h
        · exact Or.inl h
        · exact Or.inr ⟨renderVal p.2, by rw [h]⟩
      · exact Or.inr hfmt
    · have he2 : e ∈ (List.foldl _ (acc.1 ++ [v], acc.2) rest).2 := he
      rcases ih _ e he2 with hacc | hfmt
      · exact Or.inl hacc
      · exact Or.inr hfmt

/-- Every error `parseElements` itself produces is an `InvalidFormat`. -/
theorem parseElements_errs {T : Type} (dflt : T) (xs : List JVal)
    (f : JVal → Option T) (parent : String) :
    ∀ e ∈ (parseElements dflt xs f parent).2, ∃ s, e.msg = .invalidFormat s := by
  intro e he
  rw [parseElements] at he
  rcases parseElements_foldl_errs dflt f parent xs.enum ([], []) e he with h | h
  · simp at h
  · exact h

/-- C8 counterexample: for an Object-kind field named `person` holding the
non-object sub-value `5`, the single `InvalidFormat` error is emitted at the
field literally named `"json"` — not at the field's path `person` — refuting
the claim that the error appears at the field's path. -/
theorem claim8_counterexample :
    (validateStructF (.mk [("Person", "type=struct", some (.mk []))]) "person"
        (.int 5) "").1
      = [⟨"json", .invalidFormat "5"⟩]
    ∧ getFieldName "" "person" = "person"
    ∧ "json" ≠ "person" := by
  refine ⟨?_, by decide, by decide⟩
  rw [validateStructF.eq_def]
  simp [marshal]
  decide

/-- C8 (amended): for an Object-kind field whose decoded sub-value is neither
an object nor null, exactly one `InvalidFormat` error is emitted, but its
field is literally `"json"` (the nested decode-failure branch), carrying the
re-marshalled sub-value text, and nothing is recursed into; the target field
is nonetheless set to a freshly allocated empty nested struct.  (A null
sub-value instead re-decodes as an empty object and is recursed.) -/
theorem claim8_struct_nonobject (ty : StructTy) (fieldName parent : String) (v : JVal)
    (h1 : ∀ fs, v ≠ JVal.obj fs) (h2 : v ≠ JVal.null) :
    validateStructF ty fieldName v parent
      = ([⟨"json", .invalidFormat (marshal v)⟩], some (.structVal [])) := by
  cases v
  case null => exact absurd rfl h2
  case obj fs => exact absurd rfl (h1 fs)
  all_goals rw [validateStructF.eq_def]

/-- C8 witness: the amended statement at the concrete boolean sub-value. -/
theorem claim8_witness :
    validateStructF (.mk []) "person" (.bool true) ""
      = ([⟨"json", .invalidFormat (marshal (.bool true))⟩], some (.structVal [])) :=
  claim8_struct_nonobject (.mk []) "person" "" (.bool true)
    (fun _ h => nomatch h) (fun h => nomatch h)



theorem pairStep {α β : Type} [DecidableEq α] (e : List α) (v : β) :
    (if e ≠ [] then (e, (none : Option β)) else ([], some v))
      = (e, if e = [] then some v else none) := by
  by_cases h : e = [] <;> simp [h]

/-- Restates `validateInt`: on coercion failure the lone format error; on
success the three violation blocks appended, with commit exactly on the empty
error list. -/
theorem validateInt_unfold (vd : Validations) (fieldName parent : String) (v : JVal) :
    validateInt vd fieldName v parent
      = (match validateIntType v with
        | none => ([⟨getFieldName parent fieldName, .invalidFormat (renderVal v)⟩], none)
        | some value =>
            (intViolations vd (getFieldName parent fieldName) value,
             if intViolations vd (getFieldName parent fieldName) value = []
             then some value else none) : List VError × Option ℤ) := by
  rw [validateInt]
  rcases validateIntType v with _ | value
  · rfl
  · exact pairStep _ value

/-- Restates `validateString` as `validateInt_unfold` does `validateInt`. -/
theorem validateString_unfold (vd : Validations) (fieldName parent : String) (v : JVal) :
    validateString vd fieldName v parent
      = (match validateStringType v with
        | none => ([⟨getFieldName parent fieldName, .invalidFormat (renderVal v)⟩], none)
        | some value =>
            (strViolations vd (getFieldName parent fieldName) value,
             if strViolations vd (getFieldName parent fieldName) value = []
             then some value else none) : List VError × Option String) := by
  rw [validateString]
  rcases validateStringType v with _ | value
  · rfl
  · exact pairStep _ value

/-- Restates `validateFloat` as `validateInt_unfold` does `validateInt`. -/
theorem validateFloat_unfold (vd : Validations) (fieldName parent : String) (v : JVal) :
    validateFloat vd fieldName v parent
      = (match validateFloatType v with
        | none => ([⟨getFieldName parent fieldName, .invalidFormat (renderVal v)⟩], none)
        | some value =>
            (floatViolations vd (getFieldName parent fieldName) value,
             if floatViolations vd (getFieldName parent fieldName) value = []
             then some value else none) : List VError × Option ℚ) := by
  rw [validateFloat]
  rcases validateFloatType v with _ | value
  · rfl
  · exact pairStep _ value


/-- Lemma: every member of `intViolations` is the min error (only with a
nonzero min), the max error (only with a nonzero max), or the choice
error. -/
theorem intViolations_mem (vd : Validations) (path : String) (n : ℤ) :
    ∀ e ∈ intViolations vd path n,
      (vd.min ≠ 0 ∧ e.msg = .invalidMinNumber ((truncQ vd.min : ℤ) : ℚ))
      ∨ (vd.max ≠ 0 ∧ e.msg = .invalidMaxNumber ((truncQ vd.max : ℤ) : ℚ))
      ∨ e.msg = .invalidChoice (toString n) vd.choices := by
  intro e he
  rw [intViolations, List.mem_append, List.mem_append] at he
  rcases he with (h | h) | h
  · by_cases h1 : vd.min ≠ 0 ∧ n < truncQ vd.min
    · rw [if_pos h1] at h
      simp only [List.mem_singleton] at h
      exact Or.inl ⟨h1.1, by rw [h]⟩
    · rw [if_neg h1] at h
      simp at h
  · by_cases h2 : vd.max ≠ 0 ∧ n > truncQ vd.max
    · rw [if_pos h2] at h
      simp only [List.mem_singleton] at h
      exact Or.inr (Or.inl ⟨h2.1, by rw [h]⟩)
    · rw [if_neg h2] at h
      simp at h
  · by_cases h3 : vd.choices ≠ [] ∧ ¬ containsChoice vd.choices (.i n) = true
    · rw [if_pos h3] at h
      simp only [List.mem_singleton] at h
      exact Or.inr (Or.inr (by rw [h]))
    · rw [if_neg h3] at h
      simp at h

/-- Lemma: every error of `validateInt` is either the format error or a
member of the `intViolations` block for the coerced value. -/
theorem validateInt_errs_mem (vd : Validations) (fieldName parent : String)
    (v : JVal) :
    ∀ e ∈ (validateInt vd fieldName v parent).1,
      (∃ s, e.msg = .invalidFormat s)
      ∨ ∃ n, validateIntType v = some n
          ∧ e ∈ intViolations vd (getFieldName parent fieldName) n := by
  intro e he
  rw [validateInt_unfold] at he
  rcases hc : validateIntType v with _ | n <;> rw [hc] at he
  · simp only [List.mem_singleton] at he
    exact Or.inl ⟨renderVal v, by rw [he]⟩
  · have he2 : e ∈ intViolations vd (getFieldName parent fieldName) n := he
    exact Or.inr ⟨n, rfl, he2⟩

/-- Lemma: every error of `validateList` is a format error, the min-length
error (only with a nonzero min), the max-length error (only with a nonzero
max), or a choice error naming the declared choice set. -/
theorem validateList_errs_mem {T : Type} [DecidableEq T] (dflt : T)
    (embed : T → ChoiceV) (vd : Validations) (fieldName : String) (v : JVal)
    (f : JVal → Option T) (parent : String) :
    ∀ e ∈ (validateList dflt embed vd fieldName v f parent).1,
      (∃ s, e.msg = .invalidFormat s)
      ∨ (vd.min ≠ 0 ∧ e.msg = .invalidMinList (truncQ vd.min))
      ∨ (vd.max ≠ 0 ∧ e.msg = .invalidMaxList (truncQ vd.max))
      ∨ (∃ s, e.msg = .invalidChoice s vd.choices) := by
  intro e he
  rcases v with s | q | n | b | _ | xs | fs
  case list =>
    rw [validateList] at he
    by_cases h1 : vd.min ≠ 0 ∧ (xs.length : ℤ) < truncQ vd.min <;>
      by_cases h2 : vd.max ≠ 0 ∧ (xs.length : ℤ) > truncQ vd.max
    · rw [if_pos h1, if_pos h2] at he
      simp only [List.singleton_append] at he
      rw [if_pos (List.cons_ne_nil _ _)] at he
      simp only [List.mem_cons, List.mem_singleton, List.not_mem_nil, or_false] at he
      rcases he with h | h
      · exact Or.inr (Or.inl ⟨h1.1, by rw [h]⟩)
      · exact Or.inr (Or.inr (Or.inl ⟨h2.1, by rw [h]⟩))
    · rw [if_pos h1, if_neg h2] at he
      simp only [List.append_nil] at he
      rw [if_pos (List.cons_ne_nil _ _)] at he
      simp only [List.mem_singleton] at he
      exact Or.inr (Or.inl ⟨h1.1, by rw [he]⟩)
    · rw [if_neg h1, if_pos h2] at he
      simp only [List.nil_append] at he
      rw [if_pos (List.cons_ne_nil _ _)] at he
      simp only [List.mem_singleton] at he
      exact Or.inr (Or.inr (Or.inl ⟨h2.1, by rw [he]⟩))
    · rw [if_neg h1, if_neg h2] at he
      simp only [List.nil_append] at he
      rw [if_neg (fun h : ([] : List VError) ≠ [] => h rfl)] at he
      by_cases hpe : (parseElements dflt xs f (getFieldName parent fieldName)).2 = []
      · rw [if_neg (fun hc : _ ≠ _ => hc hpe)] at he
        by_cases hcv : validateListChoices embed vd.choices
            (removeDuplicate (parseElements dflt xs f (getFieldName parent fieldName)).1)
            (getFieldName parent fieldName) = []
        · rw [if_neg (fun hc : _ ≠ _ => hc hcv)] at he
          simp at he
        · rw [if_pos hcv] at he
          have he2 : e ∈ validateListChoices embed vd.choices
              (removeDuplicate (parseElements dflt xs f (getFieldName parent fieldName)).1)
              (getFieldName parent fieldName) := he
          rw [validateListChoices_eq] at he2
          by_cases hc0 : vd.choices = []
          · simp [hc0] at he2
          · rw [if_neg hc0] at he2
            obtain ⟨p, _, hp⟩ := List.mem_map.mp he2
            exact Or.inr (Or.inr (Or.inr ⟨_, by rw [← hp]⟩))
      · rw [if_pos hpe] at he
        obtain ⟨s, hs⟩ :=
          parseElements_errs dflt xs f (getFieldName parent fieldName) e he
        exact Or.inl ⟨s, hs⟩
  all_goals
    have he2 : e ∈
        [(⟨getFieldName parent fieldName, Msg.invalidFormat (renderVal _)⟩ : VError)] := he
    simp only [List.mem_singleton] at he2
    exact Or.inl ⟨_, by rw [he2]⟩

/-- C9: a schema `Min` equal to the zero value disables the min-bound check
entirely — independently of `Max` — so no min-bound error is ever produced
by the value validator or by the list-length validator, and a value below
zero or a length of zero is never reported; symmetrically, a zero `Max`
disables the max-bound check independently of `Min`.  Stated for
`validateInt` and the generic `validateList`, the code sites the claim
cites. -/
theorem claim9_zero_bound_skipped (vd : Validations) (fieldName parent : String)
    (v : JVal) :
    (vd.min = 0 →
      (∀ e ∈ (validateInt vd fieldName v parent).1, e.msg.isMinB = false)
      ∧ (∀ (T : Type) (inst : DecidableEq T) (dflt : T) (embed : T → ChoiceV)
          (f : JVal → Option T),
          ∀ e ∈ (validateList dflt embed vd fieldName v f parent).1,
            e.msg.isMinB = false))
    ∧ (vd.max = 0 →
      (∀ e ∈ (validateInt vd fieldName v parent).1, e.msg.isMaxB = false)
      ∧ (∀ (T : Type) (inst : DecidableEq T) (dflt : T) (embed : T → ChoiceV)
          (f : JVal → Option T),
          ∀ e ∈ (validateList dflt embed vd fieldName v f parent).1,
            e.msg.isMaxB = false)) := by
  constructor
  · intro hmin
    constructor
    · intro e he
      rcases validateInt_errs_mem vd fieldName parent v e he with ⟨s, hs⟩ | ⟨n, _, hm⟩
      · rw [hs]; rfl
      · rcases intViolations_mem vd _ n e hm with ⟨hne, _⟩ | ⟨_, hmsg⟩ | hmsg
        · exact absurd hmin hne
        · rw [hmsg]; rfl
        · rw [hmsg]; rfl
    · intro T inst dflt embed f e he
      rcases validateList_errs_mem dflt embed vd fieldName v f parent e he with
        ⟨s, hs⟩ | ⟨hne, _⟩ | ⟨_, hmsg⟩ | ⟨s, hmsg⟩
      · rw [hs]; rfl
      · exact absurd hmin hne
      · rw [hmsg]; rfl
      · rw [hmsg]; rfl
  · intro hmax
    constructor
    · intro e he
      rcases validateInt_errs_mem vd fieldName parent v e he with ⟨s, hs⟩ | ⟨n, _, hm⟩
      · rw [hs]; rfl
      · rcases intViolations_mem vd _ n e hm with ⟨_, hmsg⟩ | ⟨hne, _⟩ | hmsg
        · rw [hmsg]; rfl
        · exact absurd hmax hne
        · rw [hmsg]; rfl
    · intro T inst dflt embed f e he
      rcases validateList_errs_mem dflt embed vd fieldName v f parent e he with
        ⟨s, hs⟩ | ⟨_, hmsg⟩ | ⟨hne, _⟩ | ⟨s, hmsg⟩
      · rw [hs]; rfl
      · rw [hmsg]; rfl
      · exact absurd hmax hne
      · rw [hmsg]; rfl

/-- C9 witness: a field with `min` zero but `max=5` never yields a min error
for the value `-5` (below zero) nor for an empty list (length zero), and a
field with `min=3` but `max` zero never yields a max error for the value
`100`. -/
theorem claim9_witness :
    ({ type := "int", max := 5 } : Validations).min = 0
    ∧ (∀ e ∈ (validateInt { type := "int", max := 5 } "a" (.int (-5)) "").1,
        e.msg.isMinB = false)
    ∧ (∀ e ∈ (validateList (0 : ℤ) ChoiceV.i { type := "[]int", max := 5 } "a"
        (.list []) validateIntType "").1, e.msg.isMinB = false)
    ∧ ({ type := "int", min := 3 } : Validations).max = 0
    ∧ (∀ e ∈ (validateInt { type := "int", min := 3 } "a" (.int 100) "").1,
        e.msg.isMaxB = false) :=
  ⟨rfl,
   ((claim9_zero_bound_skipped { type := "int", max := 5 } "a" "" (.int (-5))).1 rfl).1,
   ((claim9_zero_bound_skipped { type := "[]int", max := 5 } "a" "" (.list [])).1 rfl).2
     ℤ inferInstance 0 ChoiceV.i validateIntType,
   rfl,
   ((claim9_zero_bound_skipped { type := "int", min := 3 } "a" "" (.int 100)).2 rfl).1⟩

/-- C10: a present key whose schema entry has an empty or unrecognized
`type=` hits `parseField`'s default arm: no error, no assignment — the value
is silently accepted and dropped — while the key still clears the entry's
`Required` flag, so no `RequiredField` error is emitted either. -/
theorem claim10_unknown_type (ty : StructTy) (vd : Validations) (k parent : String)
    (v : JVal) (h : vd.type ∉ recognizedTypes) :
    parseFieldF ty vd k v parent = ([], none)
    ∧ processObj ty [(k, vd)] [(k, v)] parent = ([], []) := by
  have hpf : parseFieldF ty vd k v parent = ([], none) := by
    rw [parseFieldF.eq_def]
    split
    all_goals
      first
      | rfl
      | (exfalso; apply h; simp_all [recognizedTypes])
  refine ⟨hpf, ?_⟩
  rw [processObj]
  have hl : lookupV [(k, vd)] k = some vd := by simp [lookupV]
  simp only [hl, hpf]
  rw [processObj]
  simp [clearRequired, requiredErrors]

/-- C10 witness: a field tagged with the unrecognized type `banana`, declared
required, is silently accepted: no errors, no assignment, and no
required-field error although the entry started out `Required`. -/
theorem claim10_witness :
    ({ type := "banana", required := true } : Validations).type ∉ recognizedTypes
    ∧ parseFieldF (.mk []) { type := "banana", required := true } "x" (.str "y") ""
        = ([], none)
    ∧ processObj (.mk []) [("x", { type := "banana", required := true })]
        [("x", .str "y")] "" = ([], []) :=
  ⟨by decide,
   (claim10_unknown_type (.mk []) { type := "banana", required := true } "x" ""
      (.str "y") (by decide)).1,
   (claim10_unknown_type (.mk []) { type := "banana", required := true } "x" ""
      (.str "y") (by decide)).2⟩

/-- C1: each scalar validator (Text, Integer, Real) (1) on coercion failure
returns exactly one `InvalidFormat` error and performs no bound or choice
check; (2) on coercion success returns all applicable min/max/choice
violation blocks collected together, committing the coerced value if and
only if zero violations were found. -/
theorem claim1_scalar_precedence (vd : Validations) (fieldName parent : String)
    (v : JVal) :
    ((validateStringType v = none →
        validateString vd fieldName v parent
          = ([⟨getFieldName parent fieldName, .invalidFormat (renderVal v)⟩], none))
      ∧ ∀ s, validateStringType v = some s →
          validateString vd fieldName v parent
            = (strViolations vd (getFieldName parent fieldName) s,
               if strViolations vd (getFieldName parent fieldName) s = []
               then some s else none)
          ∧ ((validateString vd fieldName v parent).2 = some s
              ↔ (validateString vd fieldName v parent).1 = []))
    ∧ ((validateIntType v = none →
        validateInt vd fieldName v parent
          = ([⟨getFieldName parent fieldName, .invalidFormat (renderVal v)⟩], none))
      ∧ ∀ n, validateIntType v = some n →
          validateInt vd fieldName v parent
            = (intViolations vd (getFieldName parent fieldName) n,
               if intViolations vd (getFieldName parent fieldName) n = []
               then some n else none)
          ∧ ((validateInt vd fieldName v parent).2 = some n
              ↔ (validateInt vd fieldName v parent).1 = []))
    ∧ ((validateFloatType v = none →
        validateFloat vd fieldName v parent
          = ([⟨getFieldName parent fieldName, .invalidFormat (renderVal v)⟩], none))
      ∧ ∀ q, validateFloatType v = some q →
          validateFloat vd fieldName v parent
            = (floatViolations vd (getFieldName parent fieldName) q,
               if floatViolations vd (getFieldName parent fieldName) q = []
               then some q else none)
          ∧ ((validateFloat vd fieldName v parent).2 = some q
              ↔ (validateFloat vd fieldName v parent).1 = [])) := by
  refine ⟨⟨?_, ?_⟩, ⟨?_, ?_⟩, ⟨?_, ?_⟩⟩
  · intro hc
    rw [validateString_unfold, hc]
  · intro s hc
    have hu := validateString_unfold vd fieldName parent v
    rw [hc] at hu
    refine ⟨hu, ?_⟩
    rw [hu]
    by_cases hE : strViolations vd (getFieldName parent fieldName) s = [] <;>
      simp [hE]
  · intro hc
    rw [validateInt_unfold, hc]
  · intro n hc
    have hu := validateInt_unfold vd fieldName parent v
    rw [hc] at hu
    refine ⟨hu, ?_⟩
    rw [hu]
    by_cases hE : intViolations vd (getFieldName parent fieldName) n = [] <;>
      simp [hE]
  · intro hc
    rw [validateFloat_unfold, hc]
  · intro q hc
    have hu := validateFloat_unfold vd fieldName parent v
    rw [hc] at hu
    refine ⟨hu, ?_⟩
    rw [hu]
    by_cases hE : floatViolations vd (getFieldName parent fieldName) q = [] <;>
      simp [hE]

/-- C1 witness: concrete instances of all three branches — a boolean fails
integer coercion with a lone format error, a below-min integer collects the
min violation and commits nothing, an in-range integer commits; plus a
too-long text and a null for the Real coercer. -/
theorem claim1_witness :
    validateInt { type := "int" } "a" (.bool true) ""
      = ([⟨"a", .invalidFormat "true"⟩], none)
    ∧ validateInt { type := "int", min := 2 } "a" (.float 1) ""
      = ([⟨"a", .invalidMinNumber 2⟩], none)
    ∧ validateInt { type := "int", min := 2 } "a" (.float 5) "" = ([], some 5)
    ∧ validateString { type := "string", max := 2 } "a" (.str "abc") ""
      = ([⟨"a", .invalidMaxString 2⟩], none)
    ∧ validateFloat { type := "float" } "a" .null ""
      = ([⟨"a", .invalidFormat "<nil>"⟩], none) := by
  refine ⟨?_, ?_, ?_, ?_, ?_⟩
  · exact ((claim1_scalar_precedence { type := "int" } "a" "" (.bool true)).2.1.1
      (by decide)).trans (by decide)
  · exact (((claim1_scalar_precedence { type := "int", min := 2 } "a" ""
      (.float 1)).2.1.2 1 (by decide)).1).trans (by decide)
  · exact (((claim1_scalar_precedence { type := "int", min := 2 } "a" ""
      (.float 5)).2.1.2 5 (by decide)).1).trans (by decide)
  · exact (((claim1_scalar_precedence { type := "string", max := 2 } "a" ""
      (.str "abc")).1.2 "abc" (by decide)).1).trans (by decide)
  · exact ((claim1_scalar_precedence { type := "float" } "a" "" .null).2.2.1
      (by decide)).trans (by decide)

/-- C2: when a decoded list passes the length checks and every element
coerces, the list validator de-duplicates the coerced values keeping each
first occurrence (`dedupFirst`), checks choices against the de-duplicated
list (with error paths indexed into that list), and commits the
de-duplicated list exactly when zero errors were produced. -/
theorem claim2_list_dedup {T : Type} [DecidableEq T] (dflt : T) (embed : T → ChoiceV)
    (vd : Validations) (fieldName parent : String) (xs : List JVal)
    (f : JVal → Option T)
    (hmin : ¬(vd.min ≠ 0 ∧ (xs.length : ℤ) < truncQ vd.min))
    (hmax : ¬(vd.max ≠ 0 ∧ (xs.length : ℤ) > truncQ vd.max))
    (hok : ∀ e ∈ xs, (f e).isSome) :
    validateList dflt embed vd fieldName (.list xs) f parent
      = (validateListChoices embed vd.choices
           (dedupFirst (xs.map fun e => (f e).getD dflt)) (getFieldName parent fieldName),
         if validateListChoices embed vd.choices
              (dedupFirst (xs.map fun e => (f e).getD dflt))
              (getFieldName parent fieldName) = []
         then some (dedupFirst (xs.map fun e => (f e).getD dflt)) else none) := by
  rw [validateList]
  rw [if_neg hmin, if_neg hmax]
  simp only [List.nil_append]
  rw [if_neg (fun h : ([] : List VError) ≠ [] => h rfl)]
  rw [parseElements_all_ok dflt xs f _ hok]
  simp only []
  rw [if_neg (fun h : ([] : List VError) ≠ [] => h rfl)]
  rw [removeDuplicate_eq_dedupFirst]
  exact pairStep _ _

/-- C2 witness: the input list `[1,2,2,3]` for an `[]int` field with no
choices commits `[1,2,3]` with no errors. -/
theorem claim2_witness :
    validateList (0 : ℤ) ChoiceV.i { type := "[]int" } "a"
        (.list [.float 1, .float 2, .float 2, .float 3]) validateIntType ""
      = ([], some [1, 2, 3]) := by
  have h := claim2_list_dedup (0 : ℤ) ChoiceV.i { type := "[]int" } "a" ""
      [.float 1, .float 2, .float 2, .float 3] validateIntType
      (by decide) (by decide) (by decide)
  refine h.trans ?_
  have hmap : ([JVal.float 1, .float 2, .float 2, .float 3].map
      fun e => (validateIntType e).getD 0) = ([1, 2, 2, 3] : List ℤ) := by decide
  rw [hmap]
  have hded : dedupFirst ([1, 2, 2, 3] : List ℤ) = [1, 2, 3] := by
    simp +decide [dedupFirst]
  rw [hded]
  simp [validateListChoices]

/-- C3: for an ObjectList field whose decoded value is a list passing the
length checks, every element is validated independently through the full
recursive pipeline at path `field[i]` — one element's errors never affect
another element's validation result — all child errors are concatenated, and
the list of nested structures is committed exactly when the whole sweep
produced zero errors (otherwise the field stays unset). -/
theorem claim3_structlist_independent (ty : StructTy) (vd : Validations)
    (fieldName parent : String) (xs : List JVal)
    (hmin : ¬(vd.min ≠ 0 ∧ (xs.length : ℤ) < truncQ vd.min))
    (hmax : ¬(vd.max ≠ 0 ∧ (xs.length : ℤ) > truncQ vd.max)) :
    validateStructListF ty vd fieldName (.list xs) parent
      = ((xs.enum.map fun p =>
            (validateSub ((findNested ty fieldName).getD (.mk [])) p.2
              (getFieldName parent fieldName ++ "[" ++ toString p.1 ++ "]")).1).flatten,
         if (xs.enum.map fun p =>
            (validateSub ((findNested ty fieldName).getD (.mk [])) p.2
              (getFieldName parent fieldName ++ "[" ++ toString p.1 ++ "]")).1).flatten
             = []
         then some (.structList (xs.enum.map fun p =>
            (validateSub ((findNested ty fieldName).getD (.mk [])) p.2
              (getFieldName parent fieldName ++ "[" ++ toString p.1 ++ "]")).2))
         else none) := by
  rw [validateStructListF]
  rw [if_neg hmin, if_neg hmax]
  simp only [List.nil_append]
  rw [if_neg (fun h : ([] : List VError) ≠ [] => h rfl)]
  rw [parseStructElementsF_eq]
  rfl

/-- C3 witness: with nested schema `{A : int, required}`, the element list
`[{a:1}, {}]` yields only element 1's missing-required error at
`items[1].a` (element 0 validated fine despite element 1's failure), and the
whole-list commit is withheld. -/
theorem claim3_witness :
    validateStructListF
        (.mk [("Items", "type=[]struct", some (.mk [("A", "type=int;required=true", none)]))])
        { type := "[]struct" } "items"
        (.list [.obj [("a", .float 1)], .obj []]) ""
      = ([⟨"items[1].a", .requiredField⟩], none) := by
  have h := claim3_structlist_independent
      (.mk [("Items", "type=[]struct", some (.mk [("A", "type=int;required=true", none)]))])
      { type := "[]struct" } "items" "" [.obj [("a", .float 1)], .obj []]
      (by decide) (by decide)
  refine h.trans ?_
  simp +decide [validateSub, processObj, parseFieldF, validateInt, validateIntType,
    getValidations, lookupV, clearRequired, requiredErrors, getFieldName,
    parseValidationTags, applyTag, cutPre, splitOnChar, LowerCase, TitleCase,
    StructTy.fieldsOf, recognizedTypes, findNested, truncQ, List.enum,
    List.enumFrom]

/-- C4: after the key loop (each present key clears its schema entry's
`Required` flag, modelled by `clearAll`), the error list ends with exactly
one `RequiredField` error at the field's path per entry still flagged
`Required` — one per filtered entry, none for the others — and every
committed target field comes from a present key, so an omitted required
field's target stays at its zero/unset value. -/
theorem claim4_required (ty : StructTy) (vmap : List (String × Validations))
    (fields : List (String × JVal)) (parent : String) :
    (∃ pre, (processObj ty vmap fields parent).1
        = pre ++ requiredErrors (clearAll vmap (fields.map Prod.fst)) parent)
    ∧ requiredErrors (clearAll vmap (fields.map Prod.fst)) parent
        = ((clearAll vmap (fields.map Prod.fst)).filter fun p => p.2.required).map
            (fun p => ⟨getFieldName parent p.1, .requiredField⟩)
    ∧ ∀ p ∈ (processObj ty vmap fields parent).2,
        ∃ k, k ∈ fields.map Prod.fst ∧ p.1 = TitleCase k :=
  ⟨(processObj_spec ty vmap fields parent).1, requiredErrors_eq _ _,
   (processObj_spec ty vmap fields parent).2⟩
